import Mathlib

/-!
Verification of the M1_Algorithmique benchmark repository.

Shallow embedding of:
* `EvalPerf.hpp` — the performance probe (start/stop bracketing, cycle and
  wall-clock deltas, cpi/ipc derived metrics).  The `double` fields that only
  ever hold integral cycle-counter values are modelled as `ℤ` together with an
  explicit round-to-nearest-double function applied at every store; the
  wall-clock fields are modelled as `ℚ` (exact real-valued time).  Results of
  floating-point division, which can be `inf`/`NaN`, are modelled by the
  `EDouble` type.
* `tds/exo6/tp2_exo6.cpp` — `ma_fonction_naive` and `ma_fonction_horner`
  (polynomial evaluation), and the `argc` usage gate of `main`.
* `tds/exo5/tp2_exo5.cpp` — `ma_fonction` (in-place running sum) and the
  `argc` usage gate of `main`.
-/

/-- Result of a double-precision operation: a finite value (modelled exactly
as a rational), positive or negative infinity, or NaN. -/
inductive EDouble where
  | val : ℚ → EDouble
  | inf : EDouble
  | neginf : EDouble
  | nan : EDouble
deriving DecidableEq

/-- IEEE-754 double division restricted to finite operands, as produced by
`N / nb_tot` and `nb_tot / N` in `EvalPerf.hpp`: division by zero yields
`±inf` for a nonzero numerator and `NaN` for `0 / 0`; otherwise the quotient
of the (exactly represented) operands. -/
def divD (x y : ℚ) : EDouble :=
  if y = 0 then
    if x = 0 then EDouble.nan
    else if 0 < x then EDouble.inf
    else EDouble.neginf
  else EDouble.val (x / y)

/-- IEEE-754 double multiplication on the `EDouble` model: NaN propagates,
`±inf * 0` is NaN, otherwise signs combine as usual. -/
def mulD : EDouble → EDouble → EDouble
  | EDouble.nan, _ => EDouble.nan
  | _, EDouble.nan => EDouble.nan
  | EDouble.val a, EDouble.val b => EDouble.val (a * b)
  | EDouble.val a, EDouble.inf =>
      if 0 < a then EDouble.inf else if a < 0 then EDouble.neginf else EDouble.nan
  | EDouble.inf, EDouble.val b =>
      if 0 < b then EDouble.inf else if b < 0 then EDouble.neginf else EDouble.nan
  | EDouble.val a, EDouble.neginf =>
      if 0 < a then EDouble.neginf else if a < 0 then EDouble.inf else EDouble.nan
  | EDouble.neginf, EDouble.val b =>
      if 0 < b then EDouble.neginf else if b < 0 then EDouble.inf else EDouble.nan
  | EDouble.inf, EDouble.inf => EDouble.inf
  | EDouble.inf, EDouble.neginf => EDouble.neginf
  | EDouble.neginf, EDouble.inf => EDouble.neginf
  | EDouble.neginf, EDouble.neginf => EDouble.inf

/-- Bit length of a natural number, with explicit fuel (64 suffices for every
`uint64_t` value, the only inputs that occur). -/
def bitLenAux : ℕ → ℕ → ℕ
  | 0, _ => 0
  | _ + 1, 0 => 0
  | fuel + 1, n => bitLenAux fuel (n / 2) + 1

/-- Bit length of a `uint64_t` value. -/
def bitLen (n : ℕ) : ℕ := bitLenAux 64 n

/-- Round-to-nearest-even conversion of a nonnegative integer (a `uint64_t`
cycle-counter reading) to the nearest IEEE-754 double: values below `2 ^ 53`
are exact, larger values keep only the top 53 significand bits. -/
def roundNat (n : ℕ) : ℕ :=
  if n < 2 ^ 53 then n
  else
    let k := bitLen n - 53
    let q := n / 2 ^ k
    let r := n % 2 ^ k
    if 2 * r < 2 ^ k then q * 2 ^ k
    else if 2 ^ k < 2 * r then (q + 1) * 2 ^ k
    else if q % 2 = 0 then q * 2 ^ k else (q + 1) * 2 ^ k

/-- Round-to-nearest-even conversion of an integer to a double, used for the
double subtraction `nb_c1 - nb_c0` (whose operands are integral doubles, so
the exact difference is an integer that is then rounded). -/
def roundInt (z : ℤ) : ℤ :=
  if 0 ≤ z then (roundNat z.toNat : ℤ) else -(roundNat (-z).toNat : ℤ)

/-- State of the `EvalPerf` probe (`EvalPerf.hpp`).  `init`/`endt` are the
steady-clock time points (`endt` models the field named `end`, a Lean
keyword), `elapsed_s`/`elapsed_ms` the cached elapsed-time fields, and
`nb_c0`/`nb_c1`/`nb_tot` the `double` fields holding (rounded) cycle-counter
values, modelled as the integers they hold. -/
structure EvalPerf where
  init : ℚ
  endt : ℚ
  elapsed_s : ℚ
  elapsed_ms : ℚ
  nb_c0 : ℤ
  nb_c1 : ℤ
  nb_tot : ℤ
deriving DecidableEq

/-- Method `start()`: records the current time point `t` and stores the
`rdtsc()` reading `c` (a `uint64_t`) into the `double` field `nb_c0`. -/
def EvalPerf.start (s : EvalPerf) (t : ℚ) (c : ℕ) : EvalPerf :=
  { s with init := t, nb_c0 := (roundNat c : ℤ) }

/-- Method `stop()`: stores the `rdtsc()` reading `c` into the `double` field
`nb_c1` and records the current time point `t`. -/
def EvalPerf.stop (s : EvalPerf) (t : ℚ) (c : ℕ) : EvalPerf :=
  { s with nb_c1 := (roundNat c : ℤ), endt := t }

/-- Method `nb_c()`: computes `nb_tot = nb_c1 - nb_c0` (double subtraction,
hence rounded), caches it, and returns it as an `int` (exact whenever the
value fits in the `int` range, the only case the theorems below use). -/
def EvalPerf.nb_c (s : EvalPerf) : ℤ × EvalPerf :=
  let tot := roundInt (s.nb_c1 - s.nb_c0)
  (tot, { s with nb_tot := tot })

/-- Method `nb_s()`: computes the elapsed seconds `end - init`, caches it in
`elapsed_s`, and returns it. -/
def EvalPerf.nb_s (s : EvalPerf) : ℚ × EvalPerf :=
  let e := s.endt - s.init
  (e, { s with elapsed_s := e })

/-- Method `nb_ms()`: returns `elapsed_s * 1000`, reading the cached
`elapsed_s` field (it does not recompute from the stored time points). -/
def EvalPerf.nb_ms (s : EvalPerf) : ℚ :=
  s.elapsed_s * 1000

/-- Method `cpi(N)`: returns `N / nb_tot` as a double. -/
def EvalPerf.cpi (s : EvalPerf) (N : ℤ) : EDouble :=
  divD (N : ℚ) (s.nb_tot : ℚ)

/-- Method `ipc(N)`: returns `nb_tot / N` as a double. -/
def EvalPerf.ipc (s : EvalPerf) (N : ℤ) : EDouble :=
  divD (s.nb_tot : ℚ) (N : ℚ)

/-- Function `ma_fonction_naive(int* p, int n, int alpha)` of
`tp2_exo6.cpp`: `res = 0; for (i = 0; i < n; i++) res += p[i] * pow(alpha, i);`
modelled over `ℤ` (exact for inputs small enough that neither `int` overflow
nor rounding in `pow` intervenes, the scope of every claim about it). -/
def ma_fonction_naive (p : List ℤ) (n : ℕ) (alpha : ℤ) : ℤ :=
  (List.range n).foldl (fun res i => res + p.getD i 0 * alpha ^ i) 0

/-- Function `ma_fonction_horner(int* p, int n, int alpha)` of
`tp2_exo6.cpp`: `res = 0; for (i = 1; i <= n; i++) res += res * alpha + p[n-i];`
(note the `+=`, faithfully kept). -/
def ma_fonction_horner (p : List ℤ) (n : ℕ) (alpha : ℤ) : ℤ :=
  (List.range' 1 n).foldl (fun res i => res + (res * alpha + p.getD (n - i) 0)) 0

/-- Loop body of `ma_fonction(int* B, int n)` of `tp2_exo5.cpp` at index `i`:
`B[i] = B[i] + B[i-1]`. -/
def psStep (A : List ℤ) (i : ℕ) : List ℤ :=
  A.set i (A.getD i 0 + A.getD (i - 1) 0)

/-- Function `ma_fonction(int* B, int n)` of `tp2_exo5.cpp`:
`for (i = 1; i < n; i++) B[i] = B[i] + B[i-1];` in place. -/
def ma_fonction (B : List ℤ) (n : ℕ) : List ℤ :=
  (List.range' 1 (n - 1)).foldl psStep B

/-- Exit status of `main` of `tp2_exo6.cpp` as a function of `argc`: the
usage gate is `if (argc < 2) return -1;`, and the only other return is the
final `return 0`. -/
def tp2_exo6_exit (argc : ℕ) : ℤ :=
  if argc < 2 then -1 else 0

/-- Exit status of `main` of `tp2_exo5.cpp` as a function of `argc`: the
usage gate is `if (argc < 2) return -1;`, and the only other return is the
final `return 0`. -/
def tp2_exo5_exit (argc : ℕ) : ℤ :=
  if argc < 2 then -1 else 0

/-- All-zero probe state, standing for a freshly constructed `EvalPerf`
object in the concrete scenarios below. -/
def probe0 : EvalPerf := ⟨0, 0, 0, 0, 0, 0, 0⟩

/-- Probe state after a completed measurement with cycle readings 0 and 7
followed by `nb_c()`, so `nb_tot = 7`. -/
def probe7 : EvalPerf := ((probe0.start 0 0).stop 0 7).nb_c.2

/-! ### Helper lemmas about the rounding model -/

lemma roundNat_of_lt {n : ℕ} (h : n < 2 ^ 53) : roundNat n = n := by
  unfold roundNat
  rw [if_pos h]

lemma roundInt_of_nonneg_of_lt {z : ℤ} (h0 : 0 ≤ z) (h : z < 2 ^ 53) :
    roundInt z = z := by
  have hz : ((z.toNat : ℕ) : ℤ) = z := Int.toNat_of_nonneg h0
  have hn : z.toNat < 2 ^ 53 := by
    have : ((z.toNat : ℕ) : ℤ) < ((2 ^ 53 : ℕ) : ℤ) := by
      rw [hz]; exact_mod_cast h
    exact_mod_cast this
  unfold roundInt
  rw [if_pos h0, roundNat_of_lt hn, hz]

/-- Shape of the probe state after a `start`/`stop` pair with counter readings
`a ≤ b < 2 ^ 53` followed by `nb_c()`: the stored and returned cycle delta is
exactly `b - a` (no rounding occurs in this range). -/
lemma nb_c_start_stop (s : EvalPerf) (t0 t1 : ℚ) (a b : ℕ)
    (hab : a ≤ b) (hb : b < 2 ^ 53) :
    (((s.start t0 a).stop t1 b).nb_c).1 = (b : ℤ) - (a : ℤ) ∧
    (((s.start t0 a).stop t1 b).nb_c).2.nb_tot = (b : ℤ) - (a : ℤ) := by
  have ha : a < 2 ^ 53 := Nat.lt_of_le_of_lt hab hb
  have key : roundInt ((roundNat b : ℤ) - (roundNat a : ℤ)) = (b : ℤ) - (a : ℤ) := by
    rw [roundNat_of_lt ha, roundNat_of_lt hb]
    apply roundInt_of_nonneg_of_lt
    · have : (a : ℤ) ≤ (b : ℤ) := by exact_mod_cast hab
      omega
    · have hb' : (b : ℤ) < ((2 ^ 53 : ℕ) : ℤ) := by exact_mod_cast hb
      have ha' : (0 : ℤ) ≤ (a : ℤ) := Int.natCast_nonneg a
      have h53 : ((2 ^ 53 : ℕ) : ℤ) = 2 ^ 53 := by norm_num
      rw [h53] at hb'
      omega
  constructor
  · simpa [EvalPerf.start, EvalPerf.stop, EvalPerf.nb_c] using key
  · simpa [EvalPerf.start, EvalPerf.stop, EvalPerf.nb_c] using key

/-! ### Claims about the polynomial benchmark (tp2_exo6.cpp) -/

/-- Claim C1 (code bug): on the spec's own example `p = [1,2,3]`
(coefficients low-to-high), `alpha = 2`, the naive evaluation returns the
polynomial value `1 + 2*2 + 3*4 = 17`, but `ma_fonction_horner` returns 34:
its loop body reads `res += res * alpha + p[n-i]`, i.e. `res = res * (alpha
+ 1) + p[n-i]`, which is Horner's scheme evaluated at `alpha + 1`, not at
`alpha` as the function's name, its comment and the spec intend. -/
theorem c1_naive_horner_disagree :
    ma_fonction_naive [1, 2, 3] 3 2 = 17 ∧ ma_fonction_horner [1, 2, 3] 3 2 = 34 := by
  decide

/-- Claim C9: for the empty polynomial (`n = 0`) both loops run zero times,
so both `ma_fonction_naive` and `ma_fonction_horner` return the initial
accumulator 0, whatever the array and `alpha` are. -/
theorem c9_empty_polynomial (p : List ℤ) (alpha : ℤ) :
    ma_fonction_naive p 0 alpha = 0 ∧ ma_fonction_horner p 0 alpha = 0 :=
  ⟨rfl, rfl⟩

/-- Claim C8 (code bug): both drivers' usage gates test `argc < 2`, so with
`argc = 2` (the program name plus a single positional argument — fewer than
the 6 the polynomial benchmark and the 5 the prefix-sum benchmark require)
neither driver exits with -1; the gate fires only with no positional
arguments at all (`argc = 1`).  This contradicts the usage messages the
programs themselves print, which list 6 (resp. 5) required arguments. -/
theorem c8_usage_gate_only_argc_lt_two :
    tp2_exo6_exit 2 = 0 ∧ tp2_exo5_exit 2 = 0 ∧
    tp2_exo6_exit 1 = -1 ∧ tp2_exo5_exit 1 = -1 ∧
    tp2_exo6_exit 7 = 0 ∧ tp2_exo5_exit 6 = 0 := by
  decide

/-! ### Claims about the EvalPerf probe -/

/-- Claim C4 counterexample: `nb_ms()` reads the cached `elapsed_s`, which
only `nb_s()` updates.  Scenario: measure an interval of 5 time units and
call `nb_s()` (caching 5); then measure an interval of 3 time units (from 10
to 13) and call `nb_ms()` first: it returns `5 * 1000 = 5000`, while
`nb_s() * 1000 = 3000` — so the two accessors do not agree independently of
call order. -/
theorem c4_call_order_counterexample :
    (((((probe0.start 0 0).stop 5 0).nb_s.2).start 10 0).stop 13 0).nb_ms ≠
      ((((((probe0.start 0 0).stop 5 0).nb_s.2).start 10 0).stop 13 0).nb_s).1 * 1000 := by
  simp only [probe0, EvalPerf.start, EvalPerf.stop, EvalPerf.nb_s, EvalPerf.nb_ms]
  norm_num

/-- Claim C4 amended: `nb_ms()` returns `elapsed_s * 1000` for the cached
`elapsed_s`; in particular it equals `nb_s() * 1000` whenever `nb_s()` has
been called on the measured interval before `nb_ms()` (the order every
driver in the repository uses), but not independently of call order. -/
theorem c4_nb_ms_after_nb_s (s : EvalPerf) :
    (s.nb_s).2.nb_ms = (s.nb_s).1 * 1000 :=
  rfl

/-- Claim C6 counterexample: with cycle readings `a = 2^53` and
`b = 2^53 + 1` (both storable in a `uint64_t`), the conversion to the
probe's `double` fields rounds both to `2^53`, so `nb_c()` returns 0, not
`b - a = 1`: the conversion through the stored representation does lose
information. -/
theorem c6_precision_loss_counterexample :
    (((probe0.start 0 (2 ^ 53)).stop 0 (2 ^ 53 + 1)).nb_c).1 ≠
      ((2 ^ 53 + 1 : ℕ) : ℤ) - ((2 ^ 53 : ℕ) : ℤ) := by
  decide

/-- Claim C6 amended: for any two cycle-counter readings `a ≤ b` captured by
a `start()`/`stop()` pair, `nb_c()` returns exactly `b - a` — with no
off-by-one and no sign flip — provided both readings are exactly
representable in a `double` (`b < 2^53`) and the delta fits in the `int`
return type; outside that range the `double` conversion rounds. -/
theorem c6_nb_c_exact_when_representable (s : EvalPerf) (t0 t1 : ℚ) (a b : ℕ)
    (hab : a ≤ b) (hb : b < 2 ^ 53) (hfit : (b : ℤ) - (a : ℤ) < 2 ^ 31) :
    (((s.start t0 a).stop t1 b).nb_c).1 = (b : ℤ) - (a : ℤ) :=
  (nb_c_start_stop s t0 t1 a b hab hb).1

/-- Witness for C6: concrete readings `a = 3`, `b = 10` give `nb_c() = 7`. -/
theorem c6_nb_c_exact_when_representable_witness :
    ((3 : ℕ) ≤ 10 ∧ (10 : ℕ) < 2 ^ 53 ∧ ((10 : ℕ) : ℤ) - ((3 : ℕ) : ℤ) < 2 ^ 31) ∧
    (((probe0.start 0 3).stop 0 10).nb_c).1 = ((10 : ℕ) : ℤ) - ((3 : ℕ) : ℤ) :=
  ⟨⟨by norm_num, by norm_num, by norm_num⟩,
   c6_nb_c_exact_when_representable probe0 0 0 3 10 (by norm_num) (by norm_num) (by norm_num)⟩

/-- Claim C2: for a completed `start()`/`stop()` interval (readings
`a < b`, exactly representable) followed by `nb_c()`, and any nonzero
operation count `N`, the accessor named `cpi` returns literally
`N / cycleDelta` and the accessor named `ipc` returns literally
`cycleDelta / N` — the formulas the spec states, inverted relative to the
conventional meanings of CPI and IPC. -/
theorem c2_cpi_ipc_literal_formulas (s : EvalPerf) (t0 t1 : ℚ) (a b : ℕ) (N : ℤ)
    (hab : a ≤ b) (hb : b < 2 ^ 53) (hne : a ≠ b) (hN : N ≠ 0) :
    (((s.start t0 a).stop t1 b).nb_c).2.cpi N
        = EDouble.val ((N : ℚ) / ((b : ℚ) - (a : ℚ))) ∧
    (((s.start t0 a).stop t1 b).nb_c).2.ipc N
        = EDouble.val (((b : ℚ) - (a : ℚ)) / (N : ℚ)) := by
  have htot := (nb_c_start_stop s t0 t1 a b hab hb).2
  have hlt : a < b := Nat.lt_of_le_of_ne hab hne
  have hd : ((b : ℚ) - (a : ℚ)) ≠ 0 := by
    have : (a : ℚ) < (b : ℚ) := by exact_mod_cast hlt
    intro hcontra
    linarith
  have hN' : (N : ℚ) ≠ 0 := Int.cast_ne_zero.mpr hN
  have hcast : (((b : ℤ) - (a : ℤ) : ℤ) : ℚ) = (b : ℚ) - (a : ℚ) := by push_cast; ring
  constructor
  · rw [EvalPerf.cpi, htot, hcast, divD, if_neg hd]
  · rw [EvalPerf.ipc, htot, hcast, divD, if_neg hN']

/-- Witness for C2: readings 3 and 10, operation count 2. -/
theorem c2_cpi_ipc_literal_formulas_witness :
    ((3 : ℕ) ≤ 10 ∧ (10 : ℕ) < 2 ^ 53 ∧ (3 : ℕ) ≠ 10 ∧ (2 : ℤ) ≠ 0) ∧
    ((((probe0.start 0 3).stop 0 10).nb_c).2.cpi 2
        = EDouble.val (((2 : ℤ) : ℚ) / (((10 : ℕ) : ℚ) - ((3 : ℕ) : ℚ))) ∧
     (((probe0.start 0 3).stop 0 10).nb_c).2.ipc 2
        = EDouble.val ((((10 : ℕ) : ℚ) - ((3 : ℕ) : ℚ)) / ((2 : ℤ) : ℚ))) :=
  ⟨⟨by norm_num, by norm_num, by norm_num, by norm_num⟩,
   c2_cpi_ipc_literal_formulas probe0 0 0 3 10 2
     (by norm_num) (by norm_num) (by norm_num) (by norm_num)⟩

/-- Claim C3: for any probe state with a nonzero cached cycle delta and any
nonzero operation count `N`, the product `cpi(N) * ipc(N)` is exactly the
finite double 1 (in this exact-rational model of double arithmetic the
floating-point epsilon tolerance collapses to equality). -/
theorem c3_cpi_mul_ipc_eq_one (s : EvalPerf) (N : ℤ)
    (hc : s.nb_tot ≠ 0) (hN : N ≠ 0) :
    mulD (s.cpi N) (s.ipc N) = EDouble.val 1 := by
  have hc' : (s.nb_tot : ℚ) ≠ 0 := Int.cast_ne_zero.mpr hc
  have hN' : (N : ℚ) ≠ 0 := Int.cast_ne_zero.mpr hN
  rw [EvalPerf.cpi, EvalPerf.ipc, divD, divD, if_neg hc', if_neg hN']
  show EDouble.val _ = EDouble.val 1
  rw [div_mul_div_comm, mul_comm]
  congr 1
  exact div_self (mul_ne_zero hc' hN')

/-- Witness for C3: the probe state with cycle delta 7 and `N = 2`. -/
theorem c3_cpi_mul_ipc_eq_one_witness :
    (probe7.nb_tot ≠ 0 ∧ (2 : ℤ) ≠ 0) ∧
    mulD (probe7.cpi 2) (probe7.ipc 2) = EDouble.val 1 :=
  ⟨⟨by decide, by decide⟩, c3_cpi_mul_ipc_eq_one probe7 2 (by decide) (by decide)⟩

/-- Claim C5 counterexample: for a completed interval with cycle delta 7
(state `probe7`), `cpi(0)` computes `0 / 7 = 0`, a perfectly finite value —
not a division-by-zero result (`inf` or `NaN`) as the claim states for both
accessors. -/
theorem c5_cpi_zero_counterexample :
    probe7.cpi 0 = EDouble.val 0 ∧
    probe7.cpi 0 ≠ EDouble.inf ∧ probe7.cpi 0 ≠ EDouble.neginf ∧
    probe7.cpi 0 ≠ EDouble.nan := by
  have h : probe7.nb_tot = 7 := by decide
  have hval : probe7.cpi 0 = EDouble.val 0 := by
    rw [EvalPerf.cpi, h]
    norm_num [divD]
  refine ⟨hval, ?_, ?_, ?_⟩ <;> rw [hval] <;> simp

/-- Claim C5 amended: with operation count `n = 0`, only `ipc(0)` actually
divides by zero: it returns `inf` when the cycle delta is positive and `NaN`
when the delta is also zero, while `cpi(0)` returns the finite value 0
whenever the delta is nonzero (and `NaN` only in the `0 / 0` case).  Both
accessors are total: no exception is raised. -/
theorem c5_zero_opcount_behavior (s : EvalPerf) :
    (0 < s.nb_tot → s.cpi 0 = EDouble.val 0 ∧ s.ipc 0 = EDouble.inf) ∧
    (s.nb_tot = 0 → s.cpi 0 = EDouble.nan ∧ s.ipc 0 = EDouble.nan) := by
  constructor
  · intro h
    have hpos : (0 : ℚ) < (s.nb_tot : ℚ) := by exact_mod_cast h
    constructor
    · rw [EvalPerf.cpi, divD, if_neg hpos.ne']
      norm_num
    · rw [EvalPerf.ipc, divD]
      norm_num [hpos.ne', hpos]
  · intro h
    constructor
    · rw [EvalPerf.cpi, h, divD]
      norm_num
    · rw [EvalPerf.ipc, h, divD]
      norm_num

/-- Witness for C5: the probe state with cycle delta 7. -/
theorem c5_zero_opcount_behavior_witness :
    (0 : ℤ) < probe7.nb_tot ∧
    (probe7.cpi 0 = EDouble.val 0 ∧ probe7.ipc 0 = EDouble.inf) :=
  ⟨by decide, (c5_zero_opcount_behavior probe7).1 (by decide)⟩

/-! ### Claims about the prefix-sum transform (tp2_exo5.cpp) -/

lemma psStep_length (A : List ℤ) (i : ℕ) : (psStep A i).length = A.length := by
  simp [psStep]

lemma foldl_psStep_length (l : List ℕ) (B : List ℤ) :
    (l.foldl psStep B).length = B.length := by
  induction l generalizing B with
  | nil => rfl
  | cons j t ih => rw [List.foldl_cons, ih, psStep_length]

lemma psStep_getD_ne (A : List ℤ) (i j : ℕ) (h : j ≠ i) :
    (psStep A j).getD i 0 = A.getD i 0 := by
  simp [psStep, List.getD_eq_getElem?_getD, List.getElem?_set_ne h]

lemma foldl_psStep_getD_notin (l : List ℕ) (B : List ℤ) (i : ℕ)
    (h : ∀ j ∈ l, j ≠ i) :
    (l.foldl psStep B).getD i 0 = B.getD i 0 := by
  induction l generalizing B with
  | nil => rfl
  | cons j t ih =>
    rw [List.foldl_cons, ih _ (fun x hx => h x (List.mem_cons_of_mem _ hx)),
      psStep_getD_ne B i j (h j (List.mem_cons_self _ _))]

/-- Loop invariant of the prefix-sum loop: after the iterations for indices
`1 .. k`, every position `i ≤ k` holds the running total of the original
first `i + 1` elements and every later position is untouched. -/
lemma ma_fonction_invariant (B : List ℤ) (k : ℕ) :
    (∀ i, i < B.length → i ≤ k →
      ((List.range' 1 k).foldl psStep B).getD i 0 = (B.take (i + 1)).sum) ∧
    (∀ i, k < i →
      ((List.range' 1 k).foldl psStep B).getD i 0 = B.getD i 0) := by
  induction k with
  | zero =>
    constructor
    · intro i hi hik
      have h0 : i = 0 := Nat.le_zero.mp hik
      subst h0
      cases B with
      | nil => simp at hi
      | cons x t => simp
    · intro i _
      rfl
  | succ k ih =>
    have hconcat : List.range' 1 (k + 1) = List.range' 1 k ++ [k + 1] := by
      simpa [Nat.add_comm] using List.range'_1_concat 1 k
    rw [hconcat, List.foldl_append, List.foldl_cons, List.foldl_nil]
    have hAlen : ((List.range' 1 k).foldl psStep B).length = B.length :=
      foldl_psStep_length _ _
    by_cases hk : k + 1 < B.length
    · have hget1 : ((List.range' 1 k).foldl psStep B).getD (k + 1) 0 = B.getD (k + 1) 0 :=
        ih.2 (k + 1) (Nat.lt_succ_self k)
      have hget0 : ((List.range' 1 k).foldl psStep B).getD k 0 = (B.take (k + 1)).sum :=
        ih.1 k (Nat.lt_of_succ_lt hk) (Nat.le_refl k)
      constructor
      · intro i hi hik
        by_cases hik' : i = k + 1
        · subst hik'
          have hlt : k + 1 < ((List.range' 1 k).foldl psStep B).length := by
            rw [hAlen]; exact hk
          have hstep : (psStep ((List.range' 1 k).foldl psStep B) (k + 1)).getD (k + 1) 0 =
              ((List.range' 1 k).foldl psStep B).getD (k + 1) 0 +
              ((List.range' 1 k).foldl psStep B).getD k 0 := by
            simp [psStep, List.getD_eq_getElem?_getD, List.getElem?_set_self hlt]
          rw [hstep, hget1, hget0, List.getD_eq_getElem _ _ hk,
            List.sum_take_succ _ _ hk, add_comm]
        · have hik2 : i ≤ k := by omega
          rw [psStep_getD_ne _ i (k + 1) (by omega), ih.1 i hi hik2]
      · intro i hik
        rw [psStep_getD_ne _ i (k + 1) (by omega), ih.2 i (by omega)]
    · have hset : psStep ((List.range' 1 k).foldl psStep B) (k + 1) =
          (List.range' 1 k).foldl psStep B := by
        rw [psStep]
        exact List.set_eq_of_length_le (by rw [hAlen]; omega)
      rw [hset]
      constructor
      · intro i hi hik
        exact ih.1 i hi (by omega)
      · intro i hik
        exact ih.2 i (by omega)

/-- Claim C7: the in-place transform `ma_fonction` preserves the array
length and replaces each element by the running total of all elements up to
and including itself; in particular `[1, 2, 3, 4]` becomes `[1, 3, 6, 10]`. -/
theorem c7_prefix_sum :
    (∀ B : List ℤ, (ma_fonction B B.length).length = B.length) ∧
    (∀ (B : List ℤ) (i : ℕ), i < B.length →
      (ma_fonction B B.length).getD i 0 = (B.take (i + 1)).sum) ∧
    ma_fonction [1, 2, 3, 4] 4 = [1, 3, 6, 10] := by
  refine ⟨fun B => foldl_psStep_length _ _, fun B i hi => ?_, by decide⟩
  exact (ma_fonction_invariant B (B.length - 1)).1 i hi (by omega)

/-- Claim C10: `ma_fonction(B, n)` writes only to indices 1 through
`n - 1`: the length is preserved, every index that is 0 or at least `n` is
left unchanged (so `B[0]` survives every call), and for `n ≤ 1` the whole
array is returned untouched. -/
theorem c10_frame :
    (∀ (B : List ℤ) (n : ℕ), (ma_fonction B n).length = B.length) ∧
    (∀ (B : List ℤ) (n i : ℕ), i = 0 ∨ n ≤ i →
      (ma_fonction B n).getD i 0 = B.getD i 0) ∧
    (∀ (B : List ℤ) (n : ℕ), n ≤ 1 → ma_fonction B n = B) := by
  refine ⟨fun B n => foldl_psStep_length _ _, fun B n i hi => ?_, fun B n hn => ?_⟩
  · apply foldl_psStep_getD_notin
    intro j hj
    rw [List.mem_range'_1] at hj
    omega
  · have h0 : n - 1 = 0 := by omega
    unfold ma_fonction
    rw [h0]
    rfl

/-- Witness for C7: element 2 of the transformed `[1, 2, 3, 4]` is the
running total `1 + 2 + 3 = 6`. -/
theorem c7_prefix_sum_witness :
    2 < ([1, 2, 3, 4] : List ℤ).length ∧
    (ma_fonction [1, 2, 3, 4] ([1, 2, 3, 4] : List ℤ).length).getD 2 0 =
      (([1, 2, 3, 4] : List ℤ).take 3).sum :=
  ⟨by decide, c7_prefix_sum.2.1 [1, 2, 3, 4] 2 (by decide)⟩

/-- Witness for C10: `B[0]` survives the call on `[1, 2, 3, 4]`, and the
one-element array `[9]` is unchanged when `n = 1`. -/
theorem c10_frame_witness :
    ((0 : ℕ) = 0 ∨ (4 : ℕ) ≤ 0) ∧
    (ma_fonction [1, 2, 3, 4] 4).getD 0 0 = ([1, 2, 3, 4] : List ℤ).getD 0 0 ∧
    (1 : ℕ) ≤ 1 ∧ ma_fonction [9] 1 = [9] :=
  ⟨Or.inl rfl, c10_frame.2.1 [1, 2, 3, 4] 4 0 (Or.inl rfl), by decide,
    c10_frame.2.2 [9] 1 (by decide)⟩
